import Mathlib

/-! DDDA save archiver: a shallow embedding of `main.go`.

The program watches the save file `DDDA.sav`, copies it to a timestamped backup
`DDDA-<unixSeconds>.sav.bak` whenever its modification time increases, lists the
backups of a directory, and restores a chosen backup over the live file.

Conventions of the embedding.

* A Go `string` is a `List Char`.  Every operation the program applies to strings
  (`TrimSuffix`, `Split` on `"-"`, `ParseInt`, `Sprintf`) uses ASCII patterns only.
* A `time.Time` is its number of nanoseconds since the Unix epoch.
* The file system is an association list from paths to files; each library call that
  can fail for reasons outside the program takes the environment's verdict as an input.
* Library functions (`strings`, `strconv`, `fmt`, `time`, `os`, `io/ioutil`, `sort`,
  `path/filepath`) are modelled after the Go standard library; functions of `main.go`
  keep their names.  The program builds for Windows only (package `walk`), which fixes
  the pattern characters of `path/filepath`.
-/

set_option autoImplicit false

namespace DDDA

deriving instance DecidableEq for Except

/-! ## Go strings -/

/-- A Go string, as the sequence of its characters. -/
abbrev GoString := List Char

/-- Go `strings.HasSuffix`: `len(s) >= len(suffix) && s[len(s)-len(suffix):] == suffix`. -/
def HasSuffix (s suffix : GoString) : Bool :=
  decide (suffix.length ≤ s.length) && decide (s.drop (s.length - suffix.length) = suffix)

/-- Go `strings.TrimSuffix`: drop `suffix` from the end of `s` when `s` ends with it. -/
def TrimSuffix (s suffix : GoString) : GoString :=
  if HasSuffix s suffix then s.take (s.length - suffix.length) else s

/-- Go `strings.IndexByte`: position of the first occurrence of `b` (`none` for Go's `-1`). -/
def IndexByte : GoString → Char → Option Nat
  | [], _ => none
  | c :: cs, b => if c = b then some 0 else (IndexByte cs b).map (· + 1)

/-- Go `strings.Count` for a one-byte separator. -/
def Count (s : GoString) (sep : Char) : Nat := s.count sep

/-- Go `strings.genSplit` for a one-byte separator: the loop cuts at the next separator at
most `n` times and ends with the rest of the string. -/
def genSplit (sep : Char) : Nat → GoString → List GoString
  | 0, s => [s]
  | n + 1, s =>
    match IndexByte s sep with
    | none => [s]
    | some m => s.take m :: genSplit sep n (s.drop (m + 1))

/-- Go `strings.Split(s, sep)` for a one-byte separator: `genSplit` run `Count(s, sep)` times. -/
def Split (s : GoString) (sep : Char) : List GoString :=
  genSplit sep (Count s sep) s

/-! ## strconv and fmt -/

/-- The largest `uint64`. -/
def maxUint64 : Nat := 2 ^ 64 - 1

/-- The loop of Go `strconv.ParseUint(s, 10, 64)`: every byte must be a decimal digit, and
the accumulated value must stay within `uint64`; `none` stands for any error. -/
def parseUintLoop : GoString → Nat → Option Nat
  | [], n => some n
  | c :: cs, n =>
    if 48 ≤ c.toNat ∧ c.toNat ≤ 57 then
      if n ≥ maxUint64 / 10 + 1 then none
      else if n * 10 + (c.toNat - 48) > maxUint64 then none
      else parseUintLoop cs (n * 10 + (c.toNat - 48))
    else none

/-- Go `strconv.ParseUint(s, 10, 64)`; the empty string is a syntax error. -/
def ParseUint (s : GoString) : Option Nat :=
  match s with
  | [] => none
  | _ :: _ => parseUintLoop s 0

/-- Go `strconv.ParseInt(s, 10, 64)`: an optional sign, then `ParseUint`, then the range
check against `2^63`; `none` stands for `err != nil`. -/
def ParseInt (s : GoString) : Option Int :=
  match s with
  | [] => none
  | c :: cs =>
    match ParseUint (if c = '+' ∨ c = '-' then cs else c :: cs) with
    | none => none
    | some un =>
      if c ≠ '-' ∧ un ≥ 2 ^ 63 then none
      else if c = '-' ∧ un > 2 ^ 63 then none
      else some (if c = '-' then -(un : Int) else (un : Int))

/-- The decimal digit `d` as a character (`'0' + d`). -/
def digitByte (d : Nat) : Char := Char.ofNat (48 + d)

/-- The digit loop of Go `fmt` for base 10: digits are produced from the least significant
one and written right to left; the first argument bounds the number of iterations. -/
def fmtDigits : Nat → Nat → GoString → GoString
  | 0, u, acc => digitByte u :: acc
  | fuel + 1, u, acc =>
    if u ≥ 10 then fmtDigits fuel (u / 10) (digitByte (u % 10) :: acc)
    else digitByte u :: acc

/-- Go `%d` applied to an integer: a minus sign for a negative value, then the decimal
digits of its magnitude. -/
def fmtInteger (v : Int) : GoString :=
  if v < 0 then '-' :: fmtDigits v.natAbs v.natAbs [] else fmtDigits v.natAbs v.natAbs []

/-- Spec: whether a character is one of the decimal digits `0` to `9`. -/
def specIsDigit (c : Char) : Bool := decide (48 ≤ c.toNat ∧ c.toNat ≤ 57)

/-- Spec: the number a string of decimal digits denotes in positional notation. -/
def specDecimalValue (digits : GoString) : Nat :=
  digits.foldl (fun n c => n * 10 + (c.toNat - 48)) 0

/-- Spec: the sign and the digits of a numeral: one leading `+` or `-` is the sign. -/
def specSignDigits : GoString → Bool × GoString
  | '+' :: digits => (false, digits)
  | '-' :: digits => (true, digits)
  | digits => (false, digits)

/-- Spec: the base-10 signed 64-bit integer a string denotes: an optional sign followed by
one or more decimal digits, whose value lies between `-2^63` and `2^63 - 1`; `none` when
the string is not such a numeral. -/
def specInt64Value (s : GoString) : Option Int :=
  if (specSignDigits s).2 ≠ [] ∧ (specSignDigits s).2.all specIsDigit = true then
    if (specSignDigits s).1 = true then
      if specDecimalValue (specSignDigits s).2 ≤ 2 ^ 63
      then some (-(specDecimalValue (specSignDigits s).2 : Int)) else none
    else
      if specDecimalValue (specSignDigits s).2 < 2 ^ 63
      then some (specDecimalValue (specSignDigits s).2 : Int) else none
  else none

/-! ## time -/

/-- A Go `time.Time`: nanoseconds since the Unix epoch. -/
structure Time where
  /-- Nanoseconds since January 1, 1970 UTC. -/
  unixNano : Int
  deriving DecidableEq, Repr

/-- Go `time.Unix(sec, nsec)`. -/
def timeUnix (sec nsec : Int) : Time := ⟨sec * 1000000000 + nsec⟩

/-- Go `Time.Unix`: whole seconds since the epoch (rounded down). -/
def Time.Unix (t : Time) : Int := t.unixNano / 1000000000

/-- Go `Time.UnixNano`: the nanoseconds since the epoch as an `int64`; for an instant
outside the range of `int64` nanoseconds (about the years 1678 to 2262) the value wraps
around. -/
def Time.UnixNano (t : Time) : Int := (t.unixNano + 2 ^ 63) % 2 ^ 64 - 2 ^ 63

/-- Go `Time.Sub`: the duration `t - u` in nanoseconds, saturated to the `int64` range. -/
def Time.Sub (t u : Time) : Int :=
  max (-(2 ^ 63)) (min (2 ^ 63 - 1) (t.unixNano - u.unixNano))

/-! ## The backup name codec -/

/-- The constant `backupExtension` of `main.go`. -/
def backupExtension : GoString := ".sav.bak".toList

/-- The constant `primarySaveFileName` of `main.go`. -/
def primarySaveFileName : GoString := "DDDA.sav".toList

/-- The two errors `extractTimestamp` builds with `fmt.Errorf`, with the string each
message quotes. -/
inductive DecodeError where
  /-- Message `invalid backup name: <s>`. -/
  | invalidBackupName (s : GoString)
  /-- Message `invalid backup timestamp: <s>`. -/
  | invalidBackupTimestamp (s : GoString)
  deriving DecidableEq, Repr

/-- The function `extractTimestamp` of `main.go`. -/
def extractTimestamp (s : GoString) : Except DecodeError Time :=
  let s := TrimSuffix s backupExtension
  match Split s '-' with
  | [_, p1] =>
    match ParseInt p1 with
    | none => .error (.invalidBackupTimestamp p1)
    | some n => .ok (timeUnix n 0)
  | _ => .error (.invalidBackupName s)

/-- The name `monitor` builds: `fmt.Sprintf("%s-%d%s.bak", base, unix, ext)`. -/
def backupName (base : GoString) (unix : Int) (ext : GoString) : GoString :=
  base ++ '-' :: fmtInteger unix ++ ext ++ ".bak".toList

/-! ## The file system -/

/-- The content of a file (a Go `[]byte`). -/
abbrev Bytes := GoString

/-- A path: the directory and the file name that `filepath.Join` puts together. -/
structure Path where
  /-- The directory. -/
  dir : GoString
  /-- The last element of the path. -/
  name : GoString
  deriving DecidableEq, Repr

/-- Go `filepath.Join(dir, name)`. -/
def Join (dir name : GoString) : Path := ⟨dir, name⟩

/-- Go string concatenation `path + s` on a joined path: the suffix lands on the name. -/
def Path.plus (p : Path) (s : GoString) : Path := ⟨p.dir, p.name ++ s⟩

/-- A file: its content and its modification time. -/
structure File where
  /-- The bytes of the file. -/
  data : Bytes
  /-- The modification time the file system records. -/
  modTime : Time
  deriving DecidableEq, Repr

/-- The file system: the files that exist, each under its path. -/
abbrev FS := List (Path × File)

/-- The file stored at a path, if there is one. -/
def FS.lookup : FS → Path → Option File
  | [], _ => none
  | (q, f) :: rest, p => if q = p then some f else FS.lookup rest p

/-- The file system without the file at `p`. -/
def FS.remove (fs : FS) (p : Path) : FS := fs.filter (fun e => decide (e.1 ≠ p))

/-- The file system with `f` stored at `p`, replacing what was there. -/
def FS.write (fs : FS) (p : Path) (f : File) : FS := (p, f) :: fs.remove p

/-- An error returned by a call into `os` or `io/ioutil`. -/
inductive OsError where
  /-- The file does not exist. -/
  | notExist (p : Path)
  /-- Any other failure the operating system reports for the path. -/
  | failed (p : Path)
  deriving DecidableEq, Repr

/-- What `os.Stat` returns; the program reads only `ModTime()`. -/
structure FileInfo where
  /-- The modification time. -/
  ModTime : Time
  deriving DecidableEq, Repr

/-- Go `os.Stat`: fails when the environment says so or the file is missing. -/
def osStat (fault : Bool) (fs : FS) (p : Path) : Except OsError FileInfo :=
  if fault then .error (.failed p)
  else match fs.lookup p with
    | none => .error (.notExist p)
    | some f => .ok ⟨f.modTime⟩

/-- Go `os.Rename`: atomic; on success the file moves to `new`, replacing a file there;
on failure nothing changes. -/
def osRename (fault : Bool) (fs : FS) (old new : Path) : Except OsError FS :=
  if fault then .error (.failed old)
  else match fs.lookup old with
    | none => .error (.notExist old)
    | some f => .ok ((fs.remove old).write new f)

/-- Go `os.Chtimes(p, mtime, mtime)`: hands `mtime.UnixNano()` to the system, so the file
gets the instant that many nanoseconds after the epoch as its modification time. -/
def osChtimes (fault : Bool) (fs : FS) (p : Path) (mtime : Time) : Except OsError FS :=
  if fault then .error (.failed p)
  else match fs.lookup p with
    | none => .error (.notExist p)
    | some f => .ok (fs.write p ⟨f.data, ⟨mtime.UnixNano⟩⟩)

/-- Go `ioutil.ReadFile`. -/
def ReadFile (fault : Bool) (fs : FS) (p : Path) : Except OsError Bytes :=
  if fault then .error (.failed p)
  else match fs.lookup p with
    | none => .error (.notExist p)
    | some f => .ok f.data

/-- How a call of `ioutil.WriteFile` ends: it opens the file with `O_CREATE|O_TRUNC`,
writes, and closes. -/
inductive WriteVerdict where
  /-- Everything is written. -/
  | done
  /-- Opening the file fails: nothing changes. -/
  | openFails
  /-- The file is created or truncated, then the write or the close fails after
  `written` bytes. -/
  | writeFails (written : Nat)
  deriving DecidableEq, Repr

/-- Go `ioutil.WriteFile(p, data, 0666)`: the new file system and the error, if any. -/
def WriteFile (v : WriteVerdict) (now : Time) (fs : FS) (p : Path) (data : Bytes) :
    FS × Option OsError :=
  match v with
  | .done => (fs.write p ⟨data, now⟩, none)
  | .openFails => (fs, some (.failed p))
  | .writeFails k => (fs.write p ⟨data.take k, now⟩, some (.failed p))

/-- The environment of one call of `copyFile`. -/
structure CopyEnv where
  /-- Reading the source fails for a reason outside the program. -/
  readFault : Bool
  /-- How writing the destination ends. -/
  write : WriteVerdict
  /-- The clock when the destination is written. -/
  now : Time
  deriving DecidableEq, Repr

/-- The function `copyFile` of `main.go`. -/
def copyFile (env : CopyEnv) (fs : FS) (srcpath destpath : Path) : FS × Option OsError :=
  match ReadFile env.readFault fs srcpath with
  | .error err => (fs, some err)
  | .ok data => WriteFile env.write env.now fs destpath data

/-! ## The catalog -/

/-- The type `SaveFile` of `main.go`. -/
structure SaveFile where
  /-- The file name of the backup. -/
  Name : GoString
  /-- The label shown to the user. -/
  Title : GoString
  deriving DecidableEq, Repr

/-- The function `newSaveFile` of `main.go`; `stamp` is `Time.Format(time.Stamp)`, which
depends on the calendar and the local time zone. -/
def newSaveFile (stamp : Time → GoString) (name : GoString) (timestamp : Time) : SaveFile :=
  ⟨name, stamp timestamp⟩

/-- The names of the files of a directory, in the order the directory is enumerated. -/
def readDirNames (fs : FS) (dir : GoString) : List GoString :=
  (fs.filter (fun e => decide (e.1.dir = dir))).map (fun e => e.1.name)

/-- Go `a < b` on strings: the lexicographic order of the bytes, which for text is the
lexicographic order of the code points. -/
def stringLess : GoString → GoString → Bool
  | _, [] => false
  | [], _ :: _ => true
  | a :: as, b :: bs =>
    if a.toNat < b.toNat then true
    else if b.toNat < a.toNat then false
    else stringLess as bs

/-- Insertion of a string into a list in ascending order, behind the strings smaller than
it. -/
def insertString (s : GoString) : List GoString → List GoString
  | [] => [s]
  | x :: xs => if stringLess x s then x :: insertString s xs else s :: x :: xs

/-- Go `sort.Strings`: the strings in ascending order. -/
def sortStrings : List GoString → List GoString
  | [] => []
  | x :: xs => insertString x (sortStrings xs)

/-- The function `hasMeta` of Go `path/filepath` on Windows, the one system the program
builds for (package `walk`): whether the path holds a pattern character `*`, `?` or `[`. -/
def hasMeta (path : GoString) : Bool :=
  path.any (fun c => decide (c = '*' ∨ c = '?' ∨ c = '['))

/-- The error of `filepath.Glob`. -/
inductive GlobError where
  /-- The pattern is malformed. -/
  | ErrBadPattern
  deriving DecidableEq, Repr

/-- The environment of one call of `filepath.Glob`. -/
structure GlobEnv where
  /-- What the call returns when the directory part of the pattern holds pattern
  characters: that part is then matched against the directories of the disk, and a
  malformed pattern is an error. -/
  metaDir : Except GlobError (List Path)
  deriving DecidableEq, Repr

/-- The function `glob(dir, "*" + suffix, nil)` of Go `path/filepath`: the names of the
directory are read and sorted with `sort.Strings`; each name the pattern matches, that is
each name ending with `suffix`, is joined to the directory. -/
def glob (fs : FS) (dir suffix : GoString) : List Path :=
  ((sortStrings (readDirNames fs dir)).filter (fun name => HasSuffix name suffix)).map
    (Join dir)

/-- Go `filepath.Glob(filepath.Join(dir, "*" + suffix))`: `glob` on the directory when its
path holds no pattern character. -/
def Glob (env : GlobEnv) (fs : FS) (dir suffix : GoString) : Except GlobError (List Path) :=
  if hasMeta dir then env.metaDir else .ok (glob fs dir suffix)

/-- Go `filepath.Split`: the directory and the last element of a path. -/
def filepathSplit (path : Path) : GoString × GoString := (path.dir, path.name)

/-- An error returned by `discoverSaveFiles`. -/
inductive DiscoverError where
  /-- The error of `filepath.Glob`. -/
  | glob (err : GlobError)
  /-- An error of `extractTimestamp`. -/
  | decode (err : DecodeError)
  deriving DecidableEq, Repr

/-- The loop of `discoverSaveFiles`: decode the last element of each path, stop at the first
error, append an entry otherwise. -/
def discoverLoop (stamp : Time → GoString) :
    List Path → List SaveFile → Except DiscoverError (List SaveFile)
  | [], saves => .ok saves
  | name :: rest, saves =>
    match extractTimestamp (filepathSplit name).2 with
    | .error err => .error (.decode err)
    | .ok timestamp =>
      discoverLoop stamp rest (saves ++ [newSaveFile stamp (filepathSplit name).2 timestamp])

/-- The function `discoverSaveFiles` of `main.go`. -/
def discoverSaveFiles (stamp : Time → GoString) (env : GlobEnv) (fs : FS) (p : GoString) :
    Except DiscoverError (List SaveFile) :=
  match Glob env fs p backupExtension with
  | .error err => .error (.glob err)
  | .ok names => discoverLoop stamp names []

/-! ## Restore -/

/-- A message box shown by `walk.MsgBox`. -/
inductive MsgBox where
  /-- Title `Error`, the text of the error. -/
  | error (err : OsError)
  /-- Title `Warning`, the text of the error. -/
  | warning (err : OsError)
  /-- Title `Save Restored`, text `Backup '<title>' restored`. -/
  | saveRestored (title : GoString)
  deriving DecidableEq, Repr

/-- The environment of one call of `restoreSave`. -/
structure RestoreEnv where
  /-- The rename fails for a reason outside the program. -/
  renameFault : Bool
  /-- The stat of the backup fails for a reason outside the program. -/
  statFault : Bool
  /-- The environment of the copy. -/
  copy : CopyEnv
  /-- Setting the times fails for a reason outside the program. -/
  chtimesFault : Bool
  deriving DecidableEq, Repr

/-- The function `restoreSave` of `main.go`: the file system it leaves and the message
boxes it shows, in order. -/
def restoreSave (env : RestoreEnv) (fs : FS) (saveDir : GoString) (save : SaveFile) :
    FS × List MsgBox :=
  let primary := Join saveDir primarySaveFileName
  match osRename env.renameFault fs primary (primary.plus ".orig".toList) with
  | .error err => (fs, [.error err])
  | .ok fs1 =>
    let savePath := Join saveDir save.Name
    match osStat env.statFault fs1 savePath with
    | .error err => (fs1, [.error err])
    | .ok stat =>
      match copyFile env.copy fs1 savePath primary with
      | (fs2, some err) => (fs2, [.error err])
      | (fs2, none) =>
        match osChtimes env.chtimesFault fs2 primary stat.ModTime with
        | .error err => (fs2, [.warning err, .saveRestored save.Title])
        | .ok fs3 => (fs3, [.saveRestored save.Title])

/-! ## The watcher and the window -/

/-- The fields of `AppWindow` the program computes with. -/
structure AppWindow where
  /-- The candidate save directories. -/
  saveDirs : List GoString
  /-- The selected save directory. -/
  saveDir : GoString
  /-- The catalog. -/
  saves : List SaveFile
  /-- The model of the list box `savesLB`. -/
  savesLB : List SaveFile
  /-- The entry selected in the list box. -/
  selectedSave : SaveFile
  deriving DecidableEq, Repr

/-- The local variables of the goroutine `monitor`. -/
structure Monitor where
  /-- The path of the live file, computed once when `monitor` starts. -/
  p : Path
  /-- The directory backups are written to, read once when `monitor` starts. -/
  dir : GoString
  /-- The high-water mark. -/
  t : Time
  /-- Whether `monitor` has returned. -/
  stopped : Bool
  deriving DecidableEq, Repr

/-- The state of the program and of the disk. -/
structure World where
  /-- The file system. -/
  fs : FS
  /-- The window. -/
  aw : AppWindow
  /-- The watcher. -/
  mon : Monitor
  deriving DecidableEq, Repr

/-- The environment of one iteration of the loop of `monitor`. -/
structure PollEnv where
  /-- The stat of the live file fails for a reason outside the program. -/
  statFault : Bool
  /-- The environment of the copy. -/
  copy : CopyEnv
  deriving DecidableEq, Repr

/-- The start of `monitor`: the path and the directory are read from the window, the
high-water mark is the clock. -/
def monitorStart (aw : AppWindow) (now : Time) : Monitor :=
  ⟨Join aw.saveDir primarySaveFileName, aw.saveDir, now, false⟩

/-- One iteration of the loop of `monitor` (after the sleep). -/
def monitorPoll (stamp : Time → GoString) (env : PollEnv) (w : World) : World :=
  if w.mon.stopped then w
  else match osStat env.statFault w.fs w.mon.p with
    | .error _ => { w with mon := { w.mon with stopped := true } }
    | .ok i =>
      if i.ModTime.Sub w.mon.t > 0 then
        let t := i.ModTime
        let name := backupName "DDDA".toList t.Unix ".sav".toList
        let bp := Join w.mon.dir name
        match copyFile env.copy w.fs w.mon.p bp with
        | (fs1, some _) => { w with fs := fs1, mon := { w.mon with t := t, stopped := true } }
        | (fs1, none) =>
          { fs := fs1
            aw := { w.aw with
              saves := w.aw.saves ++ [newSaveFile stamp name t]
              savesLB := w.aw.saves ++ [newSaveFile stamp name t] }
            mon := { w.mon with t := t } }
      else w

/-- The function `main` up to the start of the watcher: `none` when it returns early (or
indexes an empty list of directories). -/
def startup (stamp : Time → GoString) (env : GlobEnv) (fs : FS) (saveDirs : List GoString)
    (now : Time) : Option World :=
  match saveDirs with
  | [] => none
  | d :: _ =>
    match discoverSaveFiles stamp env fs d with
    | .error _ => none
    | .ok saves =>
      let aw : AppWindow := ⟨saveDirs, d, saves, saves, ⟨[], []⟩⟩
      some ⟨fs, aw, monitorStart aw now⟩

/-- The handler `OnCurrentIndexChanged` of the directory combo box, for index `idx`. -/
def switchDir (stamp : Time → GoString) (env : GlobEnv) (idx : Nat) (w : World) : World :=
  match w.aw.saveDirs.get? idx with
  | none => w
  | some d =>
    match discoverSaveFiles stamp env w.fs d with
    | .error _ => { w with aw := { w.aw with saveDir := d, saves := [], savesLB := [] } }
    | .ok saves => { w with aw := { w.aw with saveDir := d, saves := saves, savesLB := saves } }

/-- The handler `OnCurrentIndexChanged` of the list box, for index `idx`. -/
def selectSave (idx : Nat) (w : World) : World :=
  match w.aw.saves.get? idx with
  | none => w
  | some save => { w with aw := { w.aw with selectedSave := save } }

/-- The handler `OnClicked` of the button `Restore`. -/
def clickRestore (env : RestoreEnv) (w : World) : World :=
  { w with fs := (restoreSave env w.fs w.aw.saveDir w.aw.selectedSave).1 }

/-- What can happen next. -/
inductive Event where
  /-- The watcher wakes up and runs one iteration. -/
  | poll (env : PollEnv)
  /-- The user selects another directory. -/
  | switch (env : GlobEnv) (idx : Nat)
  /-- The user selects an entry of the catalog. -/
  | select (idx : Nat)
  /-- The user clicks `Restore`. -/
  | restore (env : RestoreEnv)
  /-- The game writes the live save of a directory. -/
  | gameWrite (dir : GoString) (data : Bytes) (now : Time)
  deriving DecidableEq, Repr

/-- One event. -/
def step (stamp : Time → GoString) (w : World) : Event → World
  | .poll env => monitorPoll stamp env w
  | .switch env idx => switchDir stamp env idx w
  | .select idx => selectSave idx w
  | .restore env => clickRestore env w
  | .gameWrite dir data now =>
    { w with fs := w.fs.write (Join dir primarySaveFileName) ⟨data, now⟩ }

/-- A sequence of events. -/
def run (stamp : Time → GoString) (w : World) (evs : List Event) : World :=
  evs.foldl (step stamp) w


/-! ## Runs of the watcher -/

/-- One observation: the game has written the live file (content `data`, modification time
`modTime`) and the watcher then polls with the clock at `now`. -/
structure Reading where
  /-- The content of the live file. -/
  data : Bytes
  /-- The modification time the poll reads. -/
  modTime : Time
  /-- The clock when the backup, if any, is written. -/
  now : Time
  deriving DecidableEq, Repr

/-- The game writes the live file of the watched directory, then the watcher polls; the
stat and the copy do not fail. -/
def observe (stamp : Time → GoString) (w : World) (r : Reading) : World :=
  step stamp (step stamp w (.gameWrite w.mon.dir r.data r.modTime))
    (.poll ⟨false, ⟨false, .done, r.now⟩⟩)

/-- A sequence of observations. -/
def observeAll (stamp : Time → GoString) (w : World) (rs : List Reading) : World :=
  rs.foldl (observe stamp) w

/-! ## Example data -/

/-- A save directory for the examples. -/
def demoDir : GoString := "saves".toList

/-- A catalog entry for the examples. -/
def demoBackup : SaveFile := ⟨"DDDA-500.sav.bak".toList, "Jan  1 00:08:20".toList⟩

/-- A directory with the live file (content `A`) and one backup (content `B`, modification
time 500 s). -/
def demoFS : FS :=
  [(Join demoDir primarySaveFileName, ⟨"A".toList, timeUnix 700 0⟩),
   (Join demoDir demoBackup.Name, ⟨"B".toList, timeUnix 500 0⟩)]

/-- An environment in which no call fails; the clock reads 900 s. -/
def calmEnv : RestoreEnv := ⟨false, false, ⟨false, .done, timeUnix 900 0⟩, false⟩

/-- A directory holding two backups and a file that is not a backup, enumerated with the
newer backup first. -/
def demoListing : FS :=
  [(Join demoDir "DDDA-200.sav.bak".toList, ⟨"v2".toList, timeUnix 201 0⟩),
   (Join demoDir "notes.txt".toList, ⟨"hello".toList, timeUnix 50 0⟩),
   (Join demoDir "DDDA-100.sav.bak".toList, ⟨"v1".toList, timeUnix 101 0⟩)]

/-- An environment for `filepath.Glob`; it is not consulted for a directory path without
pattern characters. -/
def plainGlob : GlobEnv := ⟨.ok []⟩

/-- The directory of `demoFS` with the backup dated 9,223,372,037 s after the epoch, in
the year 2262, past the last instant whose nanoseconds fit an `int64`. -/
def lateFS : FS :=
  [(Join demoDir primarySaveFileName, ⟨"A".toList, timeUnix 700 0⟩),
   (Join demoDir demoBackup.Name, ⟨"B".toList, timeUnix 9223372037 0⟩)]

/-- A label function for the examples: the Unix seconds in decimal. -/
def demoStamp (t : Time) : GoString := fmtInteger t.Unix

/-- A second save directory for the examples. -/
def otherDir : GoString := "other".toList

/-- The program started on `demoDir` with the clock at 100 s: the catalog is empty and the
high-water mark is 100 s. -/
def demoWorld : World :=
  ⟨[(Join demoDir primarySaveFileName, ⟨"v0".toList, timeUnix 90 0⟩),
    (Join otherDir primarySaveFileName, ⟨"w0".toList, timeUnix 80 0⟩)],
   ⟨[demoDir, otherDir], demoDir, [], [], ⟨[], []⟩⟩,
   ⟨Join demoDir primarySaveFileName, demoDir, timeUnix 100 0, false⟩⟩

/-- The game has saved at 250 s while the watcher of `demoWorld` holds the mark 100 s. -/
def savedWorld : World :=
  step demoStamp demoWorld (.gameWrite demoDir "v1".toList (timeUnix 250 0))

/-- A poll during which the live file cannot be read (for instance because the game holds
it open): the stat succeeds, the copy fails. -/
def lockedPoll : PollEnv := ⟨false, ⟨true, .done, timeUnix 255 0⟩⟩

/-- Two saves within the second 105, at 105.1 s and at 105.6 s, the watcher polling in
between, at 105.3 s, and again at 110.3 s. -/
def sameSecond : List Reading :=
  [⟨"v1".toList, timeUnix 105 100000000, timeUnix 105 300000000⟩,
   ⟨"v2".toList, timeUnix 105 600000000, timeUnix 110 300000000⟩]

/-- The user selects the second directory, then the game saves in the first one at 150 s,
then the watcher polls. -/
def switchThenSave : List Event :=
  [.switch plainGlob 1, .gameWrite demoDir "v1".toList (timeUnix 150 0),
   .poll ⟨false, ⟨false, .done, timeUnix 155 0⟩⟩]

/-! ## Strings: suffixes and splitting -/

theorem HasSuffix_append (x suffix : GoString) : HasSuffix (x ++ suffix) suffix = true := by
  simp [HasSuffix]

theorem TrimSuffix_append (x suffix : GoString) : TrimSuffix (x ++ suffix) suffix = x := by
  simp [TrimSuffix, HasSuffix_append]

theorem IndexByte_eq_none (s : GoString) (b : Char) : IndexByte s b = none ↔ b ∉ s := by
  induction s with
  | nil => simp [IndexByte]
  | cons c cs ih =>
    by_cases h : c = b
    · simp [IndexByte, h]
    · simp [IndexByte, h, ih, Ne.symm h]

theorem IndexByte_append (x y : GoString) (b : Char) (hx : b ∉ x) :
    IndexByte (x ++ b :: y) b = some x.length := by
  induction x with
  | nil => simp [IndexByte]
  | cons c cs ih =>
    have hc : c ≠ b := fun h => hx (by simp [h])
    have hcs : b ∉ cs := fun h => hx (by simp [h])
    simp [IndexByte, hc, ih hcs]

theorem IndexByte_some (s : GoString) (b : Char) (m : Nat) (h : IndexByte s b = some m) :
    s = s.take m ++ b :: s.drop (m + 1) ∧ b ∉ s.take m := by
  induction s generalizing m with
  | nil => simp [IndexByte] at h
  | cons c cs ih =>
    by_cases hc : c = b
    · simp [IndexByte, hc] at h
      subst h
      simp [hc]
    · simp only [IndexByte, hc, if_false, Option.map_eq_some'] at h
      obtain ⟨k, hk, rfl⟩ := h
      obtain ⟨h1, h2⟩ := ih k hk
      refine ⟨?_, ?_⟩
      · simp only [List.take_succ_cons, List.drop_succ_cons, List.cons_append]
        rw [← h1]
      · simp [List.take_succ_cons, h2, Ne.symm hc]

theorem genSplit_length (sep : Char) (n : Nat) (s : GoString) :
    (genSplit sep n s).length = min n (Count s sep) + 1 := by
  induction n generalizing s with
  | zero => simp [genSplit]
  | succ n ih =>
    unfold genSplit
    cases h : IndexByte s sep with
    | none =>
      have : s.count sep = 0 := List.count_eq_zero.mpr ((IndexByte_eq_none s sep).mp h)
      simp [Count, this]
    | some m =>
      obtain ⟨h1, h2⟩ := IndexByte_some s sep m h
      have hc : Count s sep = Count (s.drop (m + 1)) sep + 1 := by
        unfold Count
        conv_lhs => rw [h1]
        simp [List.count_append, List.count_eq_zero.mpr h2]
      simp only [List.length_cons, ih, hc]
      omega

theorem Split_length (s : GoString) (sep : Char) :
    (Split s sep).length = s.count sep + 1 := by
  simp [Split, genSplit_length, Count]

theorem Split_two (x y : GoString) (sep : Char) (hx : sep ∉ x) (hy : sep ∉ y) :
    Split (x ++ sep :: y) sep = [x, y] := by
  have hc : Count (x ++ sep :: y) sep = 1 := by
    simp [Count, List.count_append, List.count_eq_zero.mpr hx, List.count_eq_zero.mpr hy]
  simp [Split, hc, genSplit, IndexByte_append x y sep hx]


/-! ## Decimal text -/

theorem digitByte_toNat (d : Nat) (h : d < 10) : (digitByte d).toNat = 48 + d := by
  interval_cases d <;> rfl

theorem parseUintLoop_digit (d n : Nat) (rest : GoString) (hd : d < 10)
    (hn : n * 10 + d ≤ maxUint64) :
    parseUintLoop (digitByte d :: rest) n = parseUintLoop rest (n * 10 + d) := by
  have h1 : ¬ n ≥ maxUint64 / 10 + 1 := by
    simp only [maxUint64] at hn ⊢
    omega
  have h2 : ¬ n * 10 + d > maxUint64 := by omega
  have h3 : 48 ≤ 48 + d ∧ 48 + d ≤ 57 := by omega
  simp [parseUintLoop, digitByte_toNat d hd, h1, h2, h3]

theorem parseUintLoop_fmtDigits (fuel u : Nat) (acc : GoString) (hf : u ≤ fuel)
    (hu : u ≤ maxUint64) :
    parseUintLoop (fmtDigits fuel u acc) 0 = parseUintLoop acc u := by
  induction fuel generalizing u acc with
  | zero =>
    obtain rfl : u = 0 := by omega
    simpa [fmtDigits] using parseUintLoop_digit 0 0 acc (by omega) (by simp [maxUint64])
  | succ fuel ih =>
    unfold fmtDigits
    split
    · rw [ih (u / 10) _ (by omega) (by omega)]
      have := parseUintLoop_digit (u % 10) (u / 10) acc (by omega) (by omega)
      rw [this]
      congr 1
      omega
    · simpa using parseUintLoop_digit u 0 acc (by omega) (by omega)

theorem fmtDigits_digits (fuel u : Nat) (acc : GoString) (hf : u ≤ fuel) :
    ∃ d ds, d < 10 ∧ fmtDigits fuel u acc = digitByte d :: ds ∧
      ∀ c ∈ ds, c ∈ acc ∨ ∃ e, e < 10 ∧ c = digitByte e := by
  induction fuel generalizing u acc with
  | zero =>
    obtain rfl : u = 0 := by omega
    exact ⟨0, acc, by omega, rfl, fun c hc => Or.inl hc⟩
  | succ fuel ih =>
    unfold fmtDigits
    split
    · obtain ⟨d, ds, hd, he, hall⟩ := ih (u / 10) (digitByte (u % 10) :: acc) (by omega)
      refine ⟨d, ds, hd, he, fun c hc => ?_⟩
      rcases hall c hc with h | h
      · rcases List.mem_cons.mp h with h | h
        · exact Or.inr ⟨u % 10, by omega, h⟩
        · exact Or.inl h
      · exact Or.inr h
    · exact ⟨u, acc, by omega, rfl, fun c hc => Or.inl hc⟩

theorem digitByte_ne (d : Nat) (h : d < 10) : digitByte d ≠ '-' ∧ digitByte d ≠ '+' := by
  interval_cases d <;> decide

theorem dash_not_mem_fmtDigits (u : Nat) : '-' ∉ fmtDigits u u [] := by
  obtain ⟨d, ds, hd, he, hall⟩ := fmtDigits_digits u u [] le_rfl
  rw [he]
  intro h
  rcases List.mem_cons.mp h with h | h
  · exact (digitByte_ne d hd).1 h.symm
  · rcases hall _ h with h | ⟨e, he, h⟩
    · simp at h
    · exact (digitByte_ne e he).1 h.symm

theorem ParseUint_fmtDigits (u : Nat) (hu : u ≤ maxUint64) :
    ParseUint (fmtDigits u u []) = some u := by
  obtain ⟨d, ds, _, he, _⟩ := fmtDigits_digits u u [] le_rfl
  have h := parseUintLoop_fmtDigits u u [] le_rfl hu
  rw [he] at h ⊢
  simpa [ParseUint, parseUintLoop] using h

theorem ParseInt_fmtInteger (v : Int) (hlo : -(2 ^ 63) ≤ v) (hhi : v < 2 ^ 63) :
    ParseInt (fmtInteger v) = some v := by
  have hu : v.natAbs ≤ maxUint64 := by
    simp only [maxUint64]
    omega
  have hp := ParseUint_fmtDigits v.natAbs hu
  obtain ⟨d, ds, hd, he, _⟩ := fmtDigits_digits v.natAbs v.natAbs [] le_rfl
  unfold fmtInteger
  split
  · simp only [ParseInt, or_true, if_true, hp]
    have h1 : ¬ v.natAbs > 2 ^ 63 := by omega
    simp only [h1, and_false, and_true, ne_eq, not_true_eq_false, false_and, if_false, if_true]
    congr 1
    omega
  · rw [he] at hp ⊢
    have hne := digitByte_ne d hd
    simp only [ParseInt, hne.1, hne.2, or_self, if_false, hp]
    have h1 : ¬ v.natAbs ≥ 2 ^ 63 := by omega
    simp only [h1, hne.1, and_false, false_and, ne_eq, not_false_eq_true, if_false]
    congr 1
    omega


/-! ## `ParseInt` reads base-10 signed 64-bit numerals -/

theorem le_foldl_digits (cs : GoString) (m : Nat) :
    m ≤ cs.foldl (fun n c => n * 10 + (c.toNat - 48)) m := by
  induction cs generalizing m with
  | nil => simp
  | cons c cs ih =>
    simp only [List.foldl_cons]
    exact le_trans (by omega) (ih _)

theorem parseUintLoop_spec (s : GoString) (n : Nat) (hn : n ≤ maxUint64) :
    parseUintLoop s n =
      if s.all specIsDigit = true ∧
          s.foldl (fun n c => n * 10 + (c.toNat - 48)) n ≤ maxUint64
      then some (s.foldl (fun n c => n * 10 + (c.toNat - 48)) n) else none := by
  induction s generalizing n with
  | nil => simp [parseUintLoop, hn]
  | cons c cs ih =>
    have hmono := le_foldl_digits cs (n * 10 + (c.toNat - 48))
    simp only [parseUintLoop, List.all_cons, List.foldl_cons, Bool.and_eq_true]
    by_cases hd : 48 ≤ c.toNat ∧ c.toNat ≤ 57
    · have hd' : specIsDigit c = true := by simp [specIsDigit, hd]
      simp only [hd, and_self, if_true, hd', true_and]
      by_cases h1 : n ≥ maxUint64 / 10 + 1
      · have : ¬ cs.foldl (fun n c => n * 10 + (c.toNat - 48)) (n * 10 + (c.toNat - 48))
            ≤ maxUint64 := by
          simp only [maxUint64] at h1 ⊢
          omega
        simp [h1, this]
      · by_cases h2 : n * 10 + (c.toNat - 48) > maxUint64
        · have : ¬ cs.foldl (fun n c => n * 10 + (c.toNat - 48)) (n * 10 + (c.toNat - 48))
              ≤ maxUint64 := by omega
          simp [h1, h2, this]
        · simp only [h1, h2, if_false]
          exact ih _ (by omega)
    · have hd' : ¬ specIsDigit c = true := by simp [specIsDigit, hd]
      simp [hd, hd']

theorem ParseUint_spec (s : GoString) :
    ParseUint s =
      if (s ≠ [] ∧ s.all specIsDigit = true) ∧ specDecimalValue s ≤ maxUint64
      then some (specDecimalValue s) else none := by
  cases s with
  | nil => simp [ParseUint]
  | cons c cs =>
    simp only [ParseUint, parseUintLoop_spec (c :: cs) 0 (by simp [maxUint64]),
      specDecimalValue]
    simp

theorem ParseInt_range (c : Char) (ok : Prop) [Decidable ok] (v : Nat) :
    (match (if ok ∧ v ≤ maxUint64 then some v else none : Option Nat) with
      | none => none
      | some un =>
        if c ≠ '-' ∧ un ≥ 2 ^ 63 then none
        else if c = '-' ∧ un > 2 ^ 63 then none
        else some (if c = '-' then -(un : Int) else (un : Int))) =
    if ok then
      if c = '-' then (if v ≤ 2 ^ 63 then some (-(v : Int)) else none)
      else (if v < 2 ^ 63 then some (v : Int) else none)
    else none := by
  have e64 : maxUint64 = 18446744073709551615 := by simp [maxUint64]
  by_cases hok : ok
  · by_cases hm : v ≤ maxUint64
    · simp only [hok, hm, and_self, if_true]
      by_cases hc : c = '-'
      · simp only [hc, ne_eq, not_true_eq_false, false_and, true_and, if_true, if_false]
        split_ifs <;> first | rfl | omega
      · simp only [hc, ne_eq, not_false_eq_true, false_and, true_and, if_false]
        split_ifs <;> first | rfl | omega
    · simp only [hok, hm, and_false, if_true, if_false]
      split_ifs <;> first | rfl | omega
  · simp only [hok, false_and, if_false]

theorem ParseInt_cons (c : Char) (cs body : GoString)
    (hbody : (if c = '+' ∨ c = '-' then cs else c :: cs) = body) :
    ParseInt (c :: cs) =
      if body ≠ [] ∧ body.all specIsDigit = true then
        if c = '-' then
          (if specDecimalValue body ≤ 2 ^ 63 then some (-(specDecimalValue body : Int)) else none)
        else (if specDecimalValue body < 2 ^ 63 then some (specDecimalValue body : Int) else none)
      else none := by
  simp only [ParseInt, hbody, ParseUint_spec]
  exact ParseInt_range c _ _

theorem ParseInt_spec (s : GoString) : ParseInt s = specInt64Value s := by
  cases s with
  | nil => simp [ParseInt, specInt64Value, specSignDigits]
  | cons c cs =>
    by_cases hplus : c = '+'
    · subst hplus
      rw [ParseInt_cons '+' cs cs (by simp)]
      simp only [specInt64Value, specSignDigits]
      simp
    · by_cases hminus : c = '-'
      · subst hminus
        rw [ParseInt_cons '-' cs cs (by simp)]
        simp only [specInt64Value, specSignDigits]
      · have hsd : specSignDigits (c :: cs) = (false, c :: cs) := by
          unfold specSignDigits
          split
          · rename_i h; simp at h; exact absurd h.1 hplus
          · rename_i h; simp at h; exact absurd h.1 hminus
          · rfl
        rw [ParseInt_cons c cs (c :: cs) (by simp [hplus, hminus])]
        simp only [specInt64Value, hsd]
        simp [hminus]

/-! ## The codec -/

theorem backupName_sav (base : GoString) (t : Int) :
    backupName base t ".sav".toList = (base ++ '-' :: fmtInteger t) ++ backupExtension := by
  simp [backupName, backupExtension]

theorem dash_not_mem_fmtInteger (t : Int) (h0 : 0 ≤ t) : '-' ∉ fmtInteger t := by
  have : ¬ t < 0 := by omega
  simpa [fmtInteger, this] using dash_not_mem_fmtDigits t.natAbs

/-- C1 (amended): for every base without `-` and every `int64` timestamp `t ≥ 0`, decoding
the name the watcher builds with its extension `.sav`, `<base>-<t>.sav.bak`, succeeds and
returns the instant `t` seconds after the epoch. -/
theorem extractTimestamp_backupName (base : GoString) (t : Int) (hbase : '-' ∉ base)
    (h0 : 0 ≤ t) (h63 : t < 2 ^ 63) :
    extractTimestamp (backupName base t ".sav".toList) = .ok (timeUnix t 0) := by
  have hs := Split_two base (fmtInteger t) '-' hbase (dash_not_mem_fmtInteger t h0)
  have hp := ParseInt_fmtInteger t (by omega) h63
  simp only [extractTimestamp, backupName_sav, TrimSuffix_append, hs, hp]

/-- C1 (witness): the name built for `DDDA`, `.sav` and 1,700,000,000 decodes to that
instant. -/
theorem extractTimestamp_backupName_witness :
    backupName "DDDA".toList 1700000000 ".sav".toList = "DDDA-1700000000.sav.bak".toList ∧
    extractTimestamp (backupName "DDDA".toList 1700000000 ".sav".toList)
      = .ok (timeUnix 1700000000 0) :=
  ⟨by decide, extractTimestamp_backupName "DDDA".toList 1700000000 (by decide) (by decide)
    (by decide)⟩

/-- C1 (counterexample): the round trip fails for a negative timestamp, whose minus sign
is a second `-` (name `DDDA--5.sav.bak`), and for an extension other than `.sav`, which
the decoder does not strip (name `DDDA-5.txt.bak`). -/
theorem extractTimestamp_backupName_counterexample :
    '-' ∉ "DDDA".toList ∧
    extractTimestamp (backupName "DDDA".toList (-5) ".sav".toList)
      = .error (.invalidBackupName "DDDA--5".toList) ∧
    extractTimestamp (backupName "DDDA".toList 5 ".txt".toList)
      = .error (.invalidBackupTimestamp "5.txt.bak".toList) := by
  decide

/-- C7: `extractTimestamp` fails with the error `invalid backup name` exactly when the
string left after removing a trailing `.sav.bak` does not split on `-` into two segments,
that is when it holds no `-` or at least two; the error quotes that string; and
`DDDA-extra-1700000000.sav.bak` fails this way. -/
theorem extractTimestamp_invalidBackupName (s : GoString) :
    ((∃ m, extractTimestamp s = .error (.invalidBackupName m)) ↔
      (Split (TrimSuffix s backupExtension) '-').length ≠ 2) ∧
    ((Split (TrimSuffix s backupExtension) '-').length ≠ 2 ↔
      (TrimSuffix s backupExtension).count '-' = 0 ∨
      2 ≤ (TrimSuffix s backupExtension).count '-') ∧
    ((Split (TrimSuffix s backupExtension) '-').length ≠ 2 →
      extractTimestamp s = .error (.invalidBackupName (TrimSuffix s backupExtension))) ∧
    extractTimestamp "DDDA-extra-1700000000.sav.bak".toList
      = .error (.invalidBackupName "DDDA-extra-1700000000".toList) := by
  have key : (Split (TrimSuffix s backupExtension) '-').length ≠ 2 →
      extractTimestamp s = .error (.invalidBackupName (TrimSuffix s backupExtension)) := by
    intro h
    simp only [extractTimestamp]
    split
    · rename_i heq
      simp [heq] at h
    · rfl
  refine ⟨⟨?_, fun h => ⟨_, key h⟩⟩, ?_, key, by decide⟩
  · rintro ⟨m, hm⟩ hlen
    simp only [extractTimestamp] at hm
    split at hm
    · split at hm <;> simp at hm
    · rename_i hne
      match hsp : Split (TrimSuffix s backupExtension) '-', hlen with
      | [a, b], _ => exact hne a b hsp
  · rw [Split_length]
    omega

theorem Unix_timeUnix (n : Int) : (timeUnix n 0).Unix = n := by
  simp [timeUnix, Time.Unix]

/-- C8: when the string left after removing a trailing `.sav.bak` splits on `-` into
exactly two segments, `extractTimestamp` fails with `invalid backup timestamp` if the
second segment is not a base-10 signed 64-bit numeral, and otherwise returns the instant
exactly `n` whole seconds after the epoch, `n` being the integer the second segment
denotes, whatever the first segment is; `DDDA-notanumber.sav.bak` fails with the timestamp
error and `DDDA-1700000000.sav.bak` gives 1,700,000,000 seconds. -/
theorem extractTimestamp_two_segments (s p0 p1 : GoString)
    (h : Split (TrimSuffix s backupExtension) '-' = [p0, p1]) :
    (specInt64Value p1 = none →
      extractTimestamp s = .error (.invalidBackupTimestamp p1)) ∧
    (∀ n, specInt64Value p1 = some n →
      extractTimestamp s = .ok (timeUnix n 0) ∧ (timeUnix n 0).Unix = n ∧
      (timeUnix n 0).unixNano = n * 1000000000) ∧
    extractTimestamp "DDDA-notanumber.sav.bak".toList
      = .error (.invalidBackupTimestamp "notanumber".toList) ∧
    extractTimestamp "DDDA-1700000000.sav.bak".toList = .ok (timeUnix 1700000000 0) := by
  refine ⟨fun hp => ?_, fun n hp => ⟨?_, Unix_timeUnix n, by simp [timeUnix]⟩, by decide,
    by decide⟩ <;>
    simp only [extractTimestamp, h, ParseInt_spec, hp]

/-- C8 (witness): `DDDA-1700000000.sav.bak` splits into `DDDA` and `1700000000`, which
denotes 1,700,000,000. -/
theorem extractTimestamp_two_segments_witness :
    Split (TrimSuffix "DDDA-1700000000.sav.bak".toList backupExtension) '-'
      = ["DDDA".toList, "1700000000".toList] ∧
    specInt64Value "1700000000".toList = some 1700000000 ∧
    extractTimestamp "DDDA-1700000000.sav.bak".toList = .ok (timeUnix 1700000000 0) :=
  ⟨by decide, by decide,
   ((extractTimestamp_two_segments "DDDA-1700000000.sav.bak".toList "DDDA".toList
      "1700000000".toList (by decide)).2.1 1700000000 (by decide)).1⟩

/-! ## The file system -/

theorem lookup_remove (fs : FS) (p q : Path) :
    (fs.remove p).lookup q = if q = p then none else fs.lookup q := by
  induction fs with
  | nil => simp [FS.remove, FS.lookup]
  | cons e rest ih =>
    obtain ⟨r, f⟩ := e
    simp only [FS.remove, ne_eq, decide_not] at ih ⊢
    by_cases hr : r = p
    · subst hr
      by_cases hq : q = r
      · subst hq
        simpa [List.filter] using ih
      · simp [List.filter, FS.lookup, ih, hq, Ne.symm hq]
    · by_cases hq : q = p
      · subst hq
        simp [List.filter, FS.lookup, ih, hr]
      · simp [List.filter, FS.lookup, ih, hr, hq]

theorem lookup_write (fs : FS) (p q : Path) (f : File) :
    (fs.write p f).lookup q = if q = p then some f else fs.lookup q := by
  by_cases hq : q = p
  · simp [FS.write, FS.lookup, hq]
  · simp [FS.write, FS.lookup, hq, Ne.symm hq, lookup_remove]

theorem backup_name_ne (name : GoString) (h : HasSuffix name backupExtension = true) :
    name ≠ primarySaveFileName ∧ name ≠ primarySaveFileName ++ ".orig".toList := by
  constructor <;> rintro rfl <;> revert h <;> decide


/-! ## Restore -/

theorem join_ne_of_name_ne (dir a b : GoString) (h : a ≠ b) : Join dir a ≠ Join dir b := by
  intro hp
  exact h (by simpa [Join] using hp)

/-- C9: when the rename of `DDDA.sav` to `DDDA.sav.orig` fails (the environment refuses
it, or the live file is missing), `restoreSave` shows one error box and nothing else, so
no later step runs and no success is reported, and the file system is left as it was. -/
theorem restoreSave_rename_fails (env : RestoreEnv) (fs : FS) (saveDir : GoString)
    (save : SaveFile)
    (h : env.renameFault = true ∨ fs.lookup (Join saveDir primarySaveFileName) = none) :
    ∃ err, restoreSave env fs saveDir save = (fs, [MsgBox.error err]) := by
  rcases h with h | h
  · exact ⟨.failed (Join saveDir primarySaveFileName), by simp [restoreSave, osRename, h]⟩
  · by_cases hf : env.renameFault = true
    · exact ⟨.failed (Join saveDir primarySaveFileName), by simp [restoreSave, osRename, hf]⟩
    · exact ⟨.notExist (Join saveDir primarySaveFileName),
        by simp [restoreSave, osRename, hf, h]⟩

/-- C9 (witness): restoring in a directory without a live file changes nothing. -/
theorem restoreSave_rename_fails_witness :
    ∃ err, restoreSave ⟨false, false, ⟨false, .done, timeUnix 900 0⟩, false⟩
      [(Join "d".toList "DDDA-500.sav.bak".toList, ⟨"B".toList, timeUnix 500 0⟩)]
      "d".toList ⟨"DDDA-500.sav.bak".toList, "label".toList⟩
      = ([(Join "d".toList "DDDA-500.sav.bak".toList, ⟨"B".toList, timeUnix 500 0⟩)],
          [MsgBox.error err]) :=
  restoreSave_rename_fails _ _ _ _ (Or.inr (by decide))

theorem UnixNano_of_int64 (t : Time) (hlo : -(2 ^ 63) ≤ t.unixNano)
    (hhi : t.unixNano < 2 ^ 63) : (⟨t.UnixNano⟩ : Time) = t := by
  obtain ⟨n⟩ := t
  simp only [Time.UnixNano, Time.mk.injEq] at hlo hhi ⊢
  omega

/-- C2 (amended): when the live file holds `A`, the chosen backup (a name ending in
`.sav.bak`) holds `B` with modification time `T`, and the rename, the stat and the copy
succeed, then `restoreSave` reports success and shows no error, `DDDA.sav.orig` is the
former live file, `DDDA.sav` holds `B`, and the backup is unchanged.  If setting the times
succeeds the only box is the success box and `DDDA.sav` has the modification time
`T.UnixNano()` nanoseconds after the epoch, which is `T` when the nanoseconds of `T` fit an
`int64`; if it fails a warning precedes the success box. -/
theorem restoreSave_success (env : RestoreEnv) (fs : FS) (saveDir : GoString)
    (save : SaveFile) (A B : Bytes) (mA T : Time)
    (hlive : fs.lookup (Join saveDir primarySaveFileName) = some ⟨A, mA⟩)
    (hbak : fs.lookup (Join saveDir save.Name) = some ⟨B, T⟩)
    (hname : HasSuffix save.Name backupExtension = true)
    (hrename : env.renameFault = false) (hstat : env.statFault = false)
    (hread : env.copy.readFault = false) (hwrite : env.copy.write = .done) :
    MsgBox.saveRestored save.Title ∈ (restoreSave env fs saveDir save).2 ∧
    (∀ err, MsgBox.error err ∉ (restoreSave env fs saveDir save).2) ∧
    (restoreSave env fs saveDir save).1.lookup
      ((Join saveDir primarySaveFileName).plus ".orig".toList) = some ⟨A, mA⟩ ∧
    (∃ m, (restoreSave env fs saveDir save).1.lookup (Join saveDir primarySaveFileName)
      = some ⟨B, m⟩) ∧
    (restoreSave env fs saveDir save).1.lookup (Join saveDir save.Name) = some ⟨B, T⟩ ∧
    (env.chtimesFault = false →
      (restoreSave env fs saveDir save).2 = [MsgBox.saveRestored save.Title] ∧
      (restoreSave env fs saveDir save).1.lookup (Join saveDir primarySaveFileName)
        = some ⟨B, ⟨T.UnixNano⟩⟩) ∧
    (env.chtimesFault = false → -(2 ^ 63) ≤ T.unixNano → T.unixNano < 2 ^ 63 →
      (restoreSave env fs saveDir save).1.lookup (Join saveDir primarySaveFileName)
        = some ⟨B, T⟩) ∧
    (env.chtimesFault = true →
      ∃ err, (restoreSave env fs saveDir save).2
        = [MsgBox.warning err, MsgBox.saveRestored save.Title]) := by
  obtain ⟨hn1, hn2⟩ := backup_name_ne save.Name hname
  have hp1 : Join saveDir save.Name ≠ Join saveDir primarySaveFileName :=
    join_ne_of_name_ne _ _ _ hn1
  have hp2 : Join saveDir save.Name ≠ (Join saveDir primarySaveFileName).plus ".orig".toList :=
    join_ne_of_name_ne _ _ _ hn2
  have hp3 : (Join saveDir primarySaveFileName).plus ".orig".toList
      ≠ Join saveDir primarySaveFileName := by
    simp [Join, Path.plus]
  have hT : -(2 ^ 63) ≤ T.unixNano → T.unixNano < 2 ^ 63 → (⟨T.UnixNano⟩ : Time) = T :=
    UnixNano_of_int64 T
  simp only [restoreSave]
  generalize (Join saveDir primarySaveFileName).plus ".orig".toList = orig at *
  generalize Join saveDir primarySaveFileName = primary at *
  generalize Join saveDir save.Name = savePath at *
  cases hch : env.chtimesFault
  · simp [osRename, osStat, copyFile, ReadFile, WriteFile, osChtimes, hlive,
      hbak, hrename, hstat, hread, hwrite, lookup_write, lookup_remove, hp1, hp2, hp3]
    exact hT
  · simp [osRename, osStat, copyFile, ReadFile, WriteFile, osChtimes, hlive,
      hbak, hrename, hstat, hread, hwrite, lookup_write, lookup_remove, hp1, hp2, hp3]

/-- C2 (witness): restoring `DDDA-500.sav.bak` (content `B`, modification time 500 s) over
a live file with content `A`. -/
theorem restoreSave_success_witness :
    (restoreSave calmEnv demoFS demoDir demoBackup).2 = [MsgBox.saveRestored demoBackup.Title] ∧
    (restoreSave calmEnv demoFS demoDir demoBackup).1.lookup (Join demoDir primarySaveFileName)
      = some ⟨"B".toList, timeUnix 500 0⟩ :=
  ⟨((restoreSave_success calmEnv demoFS demoDir demoBackup "A".toList "B".toList
      (timeUnix 700 0) (timeUnix 500 0) (by decide) (by decide) (by decide) (by decide)
      (by decide) (by decide) (by decide)).2.2.2.2.2.1 (by decide)).1,
   (restoreSave_success calmEnv demoFS demoDir demoBackup "A".toList "B".toList
      (timeUnix 700 0) (timeUnix 500 0) (by decide) (by decide) (by decide) (by decide)
      (by decide) (by decide) (by decide)).2.2.2.2.2.2.1 (by decide) (by decide)
      (by decide)⟩

/-- C2 (counterexample): the backup has the modification time `T` = 9,223,372,037 s, whose
nanoseconds do not fit an `int64`; every step succeeds, the restore is reported as
successful without a warning, the backup keeps `T`, and `DDDA.sav` does not have the
modification time `T`: it has the instant -9,223,372,036,709,551,616 ns, in 1677. -/
theorem restoreSave_success_counterexample :
    lateFS.lookup (Join demoDir primarySaveFileName) = some ⟨"A".toList, timeUnix 700 0⟩ ∧
    lateFS.lookup (Join demoDir demoBackup.Name) = some ⟨"B".toList, timeUnix 9223372037 0⟩ ∧
    (restoreSave calmEnv lateFS demoDir demoBackup).2 = [MsgBox.saveRestored demoBackup.Title] ∧
    (restoreSave calmEnv lateFS demoDir demoBackup).1.lookup (Join demoDir demoBackup.Name)
      = some ⟨"B".toList, timeUnix 9223372037 0⟩ ∧
    (restoreSave calmEnv lateFS demoDir demoBackup).1.lookup (Join demoDir primarySaveFileName)
      = some ⟨"B".toList, ⟨-9223372036709551616⟩⟩ ∧
    (restoreSave calmEnv lateFS demoDir demoBackup).1.lookup (Join demoDir primarySaveFileName)
      ≠ some ⟨"B".toList, timeUnix 9223372037 0⟩ := by
  decide

/-- C3 (amended): when the rename succeeds and the stat of the backup or the copy fails,
`restoreSave` shows one error box and nothing else, and `DDDA.sav.orig` is the former live
file; `DDDA.sav` is absent when the stat fails, the backup cannot be read or `DDDA.sav`
cannot be opened; when the write fails after `DDDA.sav` was opened, `DDDA.sav` exists and
holds the bytes written so far, a beginning of the backup. -/
theorem restoreSave_aborted (env : RestoreEnv) (fs : FS) (saveDir : GoString)
    (save : SaveFile) (A : Bytes) (mA : Time)
    (hlive : fs.lookup (Join saveDir primarySaveFileName) = some ⟨A, mA⟩)
    (hname : HasSuffix save.Name backupExtension = true)
    (hrename : env.renameFault = false)
    (hfail : env.statFault = true ∨ fs.lookup (Join saveDir save.Name) = none ∨
      env.copy.readFault = true ∨ env.copy.write ≠ .done) :
    (∃ err, (restoreSave env fs saveDir save).2 = [MsgBox.error err]) ∧
    (restoreSave env fs saveDir save).1.lookup
      ((Join saveDir primarySaveFileName).plus ".orig".toList) = some ⟨A, mA⟩ ∧
    ((env.statFault = true ∨ fs.lookup (Join saveDir save.Name) = none ∨
        env.copy.readFault = true ∨ env.copy.write = .openFails) →
      (restoreSave env fs saveDir save).1.lookup (Join saveDir primarySaveFileName) = none) ∧
    (∀ B T k, env.statFault = false → fs.lookup (Join saveDir save.Name) = some ⟨B, T⟩ →
      env.copy.readFault = false → env.copy.write = .writeFails k →
      (restoreSave env fs saveDir save).1.lookup (Join saveDir primarySaveFileName)
        = some ⟨B.take k, env.copy.now⟩) := by
  obtain ⟨hn1, hn2⟩ := backup_name_ne save.Name hname
  have hp1 : Join saveDir save.Name ≠ Join saveDir primarySaveFileName :=
    join_ne_of_name_ne _ _ _ hn1
  have hp2 : Join saveDir save.Name ≠ (Join saveDir primarySaveFileName).plus ".orig".toList :=
    join_ne_of_name_ne _ _ _ hn2
  have hp3 : (Join saveDir primarySaveFileName).plus ".orig".toList
      ≠ Join saveDir primarySaveFileName := by
    simp [Join, Path.plus]
  simp only [restoreSave]
  generalize (Join saveDir primarySaveFileName).plus ".orig".toList = orig at *
  generalize Join saveDir primarySaveFileName = primary at *
  generalize Join saveDir save.Name = savePath at *
  have hp4 : primary ≠ orig := Ne.symm hp3
  cases hst : env.statFault
  · cases hbk : fs.lookup savePath with
    | none =>
      simp [osRename, osStat, hlive, hrename, hst, hbk, lookup_write, lookup_remove, hp1,
        hp2, hp3, hp4]
    | some f =>
      cases hrd : env.copy.readFault
      · cases hwr : env.copy.write with
        | done => simp [hst, hbk, hrd, hwr] at hfail
        | openFails =>
          simp [osRename, osStat, copyFile, ReadFile, WriteFile, hlive, hrename, hst, hbk,
            hrd, hwr, lookup_write, lookup_remove, hp1, hp2, hp3, hp4]
        | writeFails k =>
          simp [osRename, osStat, copyFile, ReadFile, WriteFile, hlive, hrename, hst, hbk,
            hrd, hwr, lookup_write, lookup_remove, hp1, hp2, hp3, hp4]
          rintro B T rfl
          rfl
      · simp [osRename, osStat, copyFile, ReadFile, hlive, hrename, hst, hbk, hrd,
          lookup_write, lookup_remove, hp1, hp2, hp3, hp4]
  · simp [osRename, osStat, hlive, hrename, hst, lookup_write, lookup_remove, hp3, hp4]

/-- C3 (witness): the backup has been deleted; the live file is gone and `DDDA.sav.orig`
holds `A`. -/
theorem restoreSave_aborted_witness :
    (restoreSave calmEnv [(Join demoDir primarySaveFileName, ⟨"A".toList, timeUnix 700 0⟩)]
      demoDir demoBackup).1
      = [((Join demoDir primarySaveFileName).plus ".orig".toList,
          ⟨"A".toList, timeUnix 700 0⟩)] ∧
    (restoreSave calmEnv [(Join demoDir primarySaveFileName, ⟨"A".toList, timeUnix 700 0⟩)]
      demoDir demoBackup).1.lookup (Join demoDir primarySaveFileName) = none :=
  ⟨by decide,
   (restoreSave_aborted calmEnv [(Join demoDir primarySaveFileName, ⟨"A".toList, timeUnix 700 0⟩)]
    demoDir demoBackup "A".toList (timeUnix 700 0) (by decide) (by decide) (by decide)
    (Or.inr (Or.inl (by decide)))).2.2.1 (Or.inr (Or.inl (by decide)))⟩

/-- C3 (counterexample): the rename and the stat succeed and the copy fails while writing,
after `DDDA.sav` was created and before any byte was written: the restore is aborted with
an error, `DDDA.sav.orig` holds `A`, and the live file `DDDA.sav` is not absent: it exists
and is empty. -/
theorem restoreSave_aborted_counterexample :
    (restoreSave ⟨false, false, ⟨false, .writeFails 0, timeUnix 900 0⟩, false⟩
      demoFS demoDir demoBackup).2
      = [MsgBox.error (.failed (Join demoDir primarySaveFileName))] ∧
    (restoreSave ⟨false, false, ⟨false, .writeFails 0, timeUnix 900 0⟩, false⟩
      demoFS demoDir demoBackup).1.lookup ((Join demoDir primarySaveFileName).plus ".orig".toList)
      = some ⟨"A".toList, timeUnix 700 0⟩ ∧
    (restoreSave ⟨false, false, ⟨false, .writeFails 0, timeUnix 900 0⟩, false⟩
      demoFS demoDir demoBackup).1.lookup (Join demoDir primarySaveFileName)
      = some ⟨[], timeUnix 900 0⟩ := by
  decide


/-! ## The catalog -/

theorem stringLess_nil (a : GoString) : stringLess a [] = false := by
  cases a <;> rfl

theorem stringLess_asymm (a b : GoString) (h : stringLess a b = true) :
    stringLess b a = false := by
  induction a generalizing b with
  | nil => exact stringLess_nil b
  | cons x xs ih =>
    cases b with
    | nil => simp [stringLess] at h
    | cons y ys =>
      simp only [stringLess] at h ⊢
      split_ifs at h ⊢ <;> first | omega | rfl | exact ih ys h

theorem stringLess_le_trans (a b c : GoString) (hab : stringLess b a = false)
    (hbc : stringLess c b = false) : stringLess c a = false := by
  induction a generalizing b c with
  | nil => exact stringLess_nil c
  | cons x xs ih =>
    cases b with
    | nil => simp [stringLess] at hab
    | cons y ys =>
      cases c with
      | nil => simp [stringLess] at hbc
      | cons z zs =>
        simp only [stringLess] at hab hbc ⊢
        split_ifs at hab hbc ⊢ <;>
          first | omega | rfl | exact ih ys zs hab hbc

theorem insertString_perm (s : GoString) (l : List GoString) :
    (insertString s l).Perm (s :: l) := by
  induction l with
  | nil => exact List.Perm.refl _
  | cons x xs ih =>
    unfold insertString
    split
    · exact (List.Perm.cons x ih).trans (List.Perm.swap s x xs)
    · exact List.Perm.refl _

theorem sortStrings_perm (l : List GoString) : (sortStrings l).Perm l := by
  induction l with
  | nil => exact List.Perm.refl _
  | cons x xs ih => exact (insertString_perm x _).trans (List.Perm.cons x ih)

theorem insertString_sorted (s : GoString) (l : List GoString)
    (h : l.Pairwise (fun a b => stringLess b a = false)) :
    (insertString s l).Pairwise (fun a b => stringLess b a = false) := by
  induction l with
  | nil => simp [insertString]
  | cons x xs ih =>
    obtain ⟨hx, hxs⟩ := List.pairwise_cons.mp h
    unfold insertString
    split
    · rename_i hlt
      refine List.pairwise_cons.mpr ⟨fun y hy => ?_, ih hxs⟩
      rcases List.mem_cons.mp ((insertString_perm s xs).mem_iff.mp hy) with rfl | hy
      · exact stringLess_asymm x y hlt
      · exact hx y hy
    · rename_i hge
      have hge' : stringLess x s = false := by simpa using hge
      refine List.pairwise_cons.mpr ⟨fun y hy => ?_, h⟩
      rcases List.mem_cons.mp hy with rfl | hy
      · exact hge'
      · exact stringLess_le_trans s x y hge' (hx y hy)

theorem sortStrings_sorted (l : List GoString) :
    (sortStrings l).Pairwise (fun a b => stringLess b a = false) := by
  induction l with
  | nil => simp [sortStrings]
  | cons x xs ih => exact insertString_sorted x _ ih

theorem discoverLoop_ok (stamp : Time → GoString) (p : GoString) (names : List GoString)
    (ts : List Time) (acc : List SaveFile)
    (h : List.Forall₂ (fun name t => extractTimestamp name = .ok t) names ts) :
    discoverLoop stamp (names.map (Join p)) acc
      = .ok (acc ++ List.zipWith (newSaveFile stamp) names ts) := by
  induction h generalizing acc with
  | nil => simp [discoverLoop]
  | cons hd _ ih => simp [discoverLoop, filepathSplit, Join, hd, ih]

theorem discoverLoop_error (stamp : Time → GoString) (p : GoString)
    (pre post : List GoString) (bad : GoString) (err : DecodeError) (acc : List SaveFile)
    (hpre : ∀ name ∈ pre, ∃ t, extractTimestamp name = .ok t)
    (hbad : extractTimestamp bad = .error err) :
    discoverLoop stamp ((pre ++ bad :: post).map (Join p)) acc = .error (.decode err) := by
  induction pre generalizing acc with
  | nil => simp [discoverLoop, filepathSplit, Join, hbad]
  | cons name rest ih =>
    obtain ⟨t, ht⟩ := hpre name (by simp)
    simp only [List.cons_append, List.map_cons, discoverLoop, filepathSplit, Join, ht]
    exact ih _ (fun n hn => hpre n (by simp [hn]))

/-- C6: for a directory whose path holds no pattern character, `discoverSaveFiles` looks
only at the names of the directory that end in `.sav.bak`, in the order in which
`filepath.Glob` lists them, which is ascending by name whatever the order in which the
directory enumerates them.  If each of them decodes, the result is one entry per such
name, in that order, carrying the name and the label of its decoded timestamp.  If one of
them does not decode, the result is the error of the first that fails, and no entry.  An
error of `filepath.Glob` is returned as it is.  For a directory enumerated as
`DDDA-200.sav.bak`, `notes.txt`, `DDDA-100.sav.bak` the result is the two entries with the
timestamps 100 and 200. -/
theorem discoverSaveFiles_catalog (stamp : Time → GoString) (env : GlobEnv) (fs : FS)
    (p : GoString) (hp : hasMeta p = false) :
    (∃ names : List GoString,
      Glob env fs p backupExtension = .ok (names.map (Join p)) ∧
      names.Perm ((readDirNames fs p).filter (fun name => HasSuffix name backupExtension)) ∧
      names.Pairwise (fun a b => stringLess b a = false) ∧
      (∀ ts, List.Forall₂ (fun name t => extractTimestamp name = .ok t) names ts →
        discoverSaveFiles stamp env fs p
          = .ok (List.zipWith (newSaveFile stamp) names ts)) ∧
      (∀ pre bad post err, names = pre ++ bad :: post →
        (∀ name ∈ pre, ∃ t, extractTimestamp name = .ok t) →
        extractTimestamp bad = .error err →
        discoverSaveFiles stamp env fs p = .error (.decode err))) ∧
    (∀ q err, Glob env fs q backupExtension = .error err →
      discoverSaveFiles stamp env fs q = .error (.glob err)) ∧
    readDirNames demoListing demoDir
      = ["DDDA-200.sav.bak".toList, "notes.txt".toList, "DDDA-100.sav.bak".toList] ∧
    discoverSaveFiles stamp env demoListing demoDir
      = .ok [⟨"DDDA-100.sav.bak".toList, stamp (timeUnix 100 0)⟩,
             ⟨"DDDA-200.sav.bak".toList, stamp (timeUnix 200 0)⟩] := by
  have hglob : Glob env fs p backupExtension
      = .ok (((sortStrings (readDirNames fs p)).filter
          (fun name => HasSuffix name backupExtension)).map (Join p)) := by
    simp [Glob, glob, hp]
  refine ⟨⟨_, hglob, (sortStrings_perm _).filter _,
    (sortStrings_sorted _).sublist (List.filter_sublist _), fun ts h => ?_,
    fun pre bad post err hl hpre hbad => ?_⟩, fun q err h => ?_, by decide, ?_⟩
  · simp only [discoverSaveFiles, hglob]
    simpa using discoverLoop_ok stamp p _ ts [] h
  · simp only [discoverSaveFiles, hglob, hl]
    exact discoverLoop_error stamp p pre post bad err [] hpre hbad
  · simp only [discoverSaveFiles, h]
  · rfl

/-- C6 (witness): the directory `saves` enumerates `DDDA-200.sav.bak`, `notes.txt`,
`DDDA-100.sav.bak`; the catalog is the entry of 100 followed by the entry of 200. -/
theorem discoverSaveFiles_catalog_witness :
    hasMeta demoDir = false ∧
    discoverSaveFiles demoStamp plainGlob demoListing demoDir
      = .ok [⟨"DDDA-100.sav.bak".toList, demoStamp (timeUnix 100 0)⟩,
             ⟨"DDDA-200.sav.bak".toList, demoStamp (timeUnix 200 0)⟩] :=
  ⟨by decide,
   (discoverSaveFiles_catalog demoStamp plainGlob demoListing demoDir (by decide)).2.2.2⟩

/-! ## The watcher -/

theorem Sub_pos (t u : Time) : t.Sub u > 0 ↔ u.unixNano < t.unixNano := by
  simp only [Time.Sub]
  omega

theorem lt_foldl_max (l : List Int) (a r : Int) :
    l.foldl max a < r ↔ a < r ∧ ∀ x ∈ l, x < r := by
  induction l generalizing a with
  | nil => simp
  | cons y ys ih =>
    simp only [List.foldl_cons, ih, List.mem_cons, forall_eq_or_imp, max_lt_iff]
    tauto

theorem observe_eq (stamp : Time → GoString) (w : World) (r : Reading)
    (hp : w.mon.p = Join w.mon.dir primarySaveFileName) (hrun : w.mon.stopped = false) :
    observe stamp w r =
      if w.mon.t.unixNano < r.modTime.unixNano then
        { fs := (w.fs.write w.mon.p ⟨r.data, r.modTime⟩).write
            (Join w.mon.dir (backupName "DDDA".toList r.modTime.Unix ".sav".toList))
            ⟨r.data, r.now⟩
          aw := { w.aw with
            saves := w.aw.saves ++ [newSaveFile stamp
              (backupName "DDDA".toList r.modTime.Unix ".sav".toList) r.modTime]
            savesLB := w.aw.saves ++ [newSaveFile stamp
              (backupName "DDDA".toList r.modTime.Unix ".sav".toList) r.modTime] }
          mon := { w.mon with t := r.modTime } }
      else { w with fs := w.fs.write w.mon.p ⟨r.data, r.modTime⟩ } := by
  simp only [observe, step, monitorPoll, hrun, ← hp, osStat, copyFile, ReadFile, WriteFile,
    lookup_write, Sub_pos]
  simp


theorem observe_mon (stamp : Time → GoString) (w : World) (r : Reading)
    (hp : w.mon.p = Join w.mon.dir primarySaveFileName) (hrun : w.mon.stopped = false) :
    (observe stamp w r).mon.p = w.mon.p ∧ (observe stamp w r).mon.dir = w.mon.dir ∧
    (observe stamp w r).mon.stopped = false ∧
    (observe stamp w r).mon.t.unixNano = max w.mon.t.unixNano r.modTime.unixNano := by
  rw [observe_eq stamp w r hp hrun]
  split
  · refine ⟨rfl, rfl, hrun, ?_⟩
    simp only []
    omega
  · refine ⟨rfl, rfl, hrun, ?_⟩
    simp only []
    omega

theorem observeAll_mon (stamp : Time → GoString) (w : World) (rs : List Reading)
    (hp : w.mon.p = Join w.mon.dir primarySaveFileName) (hrun : w.mon.stopped = false) :
    (observeAll stamp w rs).mon.p = w.mon.p ∧ (observeAll stamp w rs).mon.dir = w.mon.dir ∧
    (observeAll stamp w rs).mon.stopped = false ∧
    (observeAll stamp w rs).mon.t.unixNano
      = (rs.map (fun r => r.modTime.unixNano)).foldl max w.mon.t.unixNano := by
  induction rs generalizing w with
  | nil => simp [observeAll, hrun]
  | cons r rest ih =>
    obtain ⟨h1, h2, h3, h4⟩ := observe_mon stamp w r hp hrun
    obtain ⟨i1, i2, i3, i4⟩ := ih (observe stamp w r) (by rw [h1, h2, hp]) h3
    simp only [observeAll, List.foldl_cons, List.map_cons] at i1 i2 i3 i4 ⊢
    exact ⟨i1.trans h1, i2.trans h2, i3, by rw [i4, h4]⟩

/-- C4 (amended): start the watcher with any high-water mark, let it observe any readings
`pre` and then `r`, the stat and the copy succeeding at every poll.  Then the watcher is
still running and its mark before the poll of `r` is the largest of the initial mark and
the readings of `pre`.  If `r` is strictly greater than the initial mark and than every
reading of `pre`, the poll appends one catalog entry named `DDDA-<unix seconds of r>.sav.bak`,
writes that file with the content of the live file, and sets the mark to `r`.  Otherwise
it appends nothing, writes no file and leaves the mark unchanged.  The mark never
decreases.  From the mark 100 s the readings 100, 100, 250 leave exactly one entry,
`DDDA-250.sav.bak`. -/
theorem monitor_strict_increase (stamp : Time → GoString) (w0 : World) (pre : List Reading)
    (r : Reading) (hp : w0.mon.p = Join w0.mon.dir primarySaveFileName)
    (hrun : w0.mon.stopped = false) :
    (observeAll stamp w0 pre).mon.stopped = false ∧
    (observeAll stamp w0 pre).mon.t.unixNano
      = (pre.map (fun x => x.modTime.unixNano)).foldl max w0.mon.t.unixNano ∧
    ((w0.mon.t.unixNano < r.modTime.unixNano ∧
        ∀ x ∈ pre, x.modTime.unixNano < r.modTime.unixNano) →
      (observe stamp (observeAll stamp w0 pre) r).aw.saves
        = (observeAll stamp w0 pre).aw.saves ++
          [newSaveFile stamp (backupName "DDDA".toList r.modTime.Unix ".sav".toList)
            r.modTime] ∧
      (observe stamp (observeAll stamp w0 pre) r).fs.lookup
          (Join w0.mon.dir (backupName "DDDA".toList r.modTime.Unix ".sav".toList))
        = some ⟨r.data, r.now⟩ ∧
      (observe stamp (observeAll stamp w0 pre) r).mon.t = r.modTime) ∧
    (¬ (w0.mon.t.unixNano < r.modTime.unixNano ∧
        ∀ x ∈ pre, x.modTime.unixNano < r.modTime.unixNano) →
      (observe stamp (observeAll stamp w0 pre) r).aw.saves
        = (observeAll stamp w0 pre).aw.saves ∧
      (observe stamp (observeAll stamp w0 pre) r).fs
        = (observeAll stamp w0 pre).fs.write w0.mon.p ⟨r.data, r.modTime⟩ ∧
      (observe stamp (observeAll stamp w0 pre) r).mon.t = (observeAll stamp w0 pre).mon.t) ∧
    (observeAll stamp w0 pre).mon.t.unixNano
      ≤ (observe stamp (observeAll stamp w0 pre) r).mon.t.unixNano ∧
    (observeAll stamp demoWorld
        [⟨"v1".toList, timeUnix 100 0, timeUnix 105 0⟩,
         ⟨"v1".toList, timeUnix 100 0, timeUnix 110 0⟩,
         ⟨"v2".toList, timeUnix 250 0, timeUnix 255 0⟩]).aw.saves
      = [newSaveFile stamp "DDDA-250.sav.bak".toList (timeUnix 250 0)] := by
  obtain ⟨h1, h2, h3, h4⟩ := observeAll_mon stamp w0 pre hp hrun
  have hp' : (observeAll stamp w0 pre).mon.p
      = Join (observeAll stamp w0 pre).mon.dir primarySaveFileName := by rw [h1, h2, hp]
  have hcond : (observeAll stamp w0 pre).mon.t.unixNano < r.modTime.unixNano ↔
      (w0.mon.t.unixNano < r.modTime.unixNano ∧
        ∀ x ∈ pre, x.modTime.unixNano < r.modTime.unixNano) := by
    rw [h4, lt_foldl_max]
    simp
  have hle := (observe_mon stamp _ r hp' h3).2.2.2
  refine ⟨h3, h4, fun hc => ?_, fun hc => ?_, by rw [hle]; exact le_max_left _ _, rfl⟩
  · rw [observe_eq stamp _ r hp' h3, if_pos (hcond.mpr hc), h2]
    exact ⟨rfl, by simp [lookup_write], rfl⟩
  · rw [observe_eq stamp _ r hp' h3, if_neg (fun h => hc (hcond.mp h)), h1]
    exact ⟨rfl, rfl, rfl⟩


/-- C4 (witness): from the mark 100 s and the readings 100 s, 100 s, the reading 250 s
appends the entry `DDDA-250.sav.bak` to a catalog that is still empty. -/
theorem monitor_strict_increase_witness :
    (observeAll demoStamp demoWorld
      [⟨"v1".toList, timeUnix 100 0, timeUnix 105 0⟩,
       ⟨"v1".toList, timeUnix 100 0, timeUnix 110 0⟩]).aw.saves = [] ∧
    (observe demoStamp (observeAll demoStamp demoWorld
      [⟨"v1".toList, timeUnix 100 0, timeUnix 105 0⟩,
       ⟨"v1".toList, timeUnix 100 0, timeUnix 110 0⟩])
      ⟨"v2".toList, timeUnix 250 0, timeUnix 255 0⟩).aw.saves
      = (observeAll demoStamp demoWorld
          [⟨"v1".toList, timeUnix 100 0, timeUnix 105 0⟩,
           ⟨"v1".toList, timeUnix 100 0, timeUnix 110 0⟩]).aw.saves ++
        [newSaveFile demoStamp
          (backupName "DDDA".toList (timeUnix 250 0).Unix ".sav".toList) (timeUnix 250 0)] :=
  ⟨by decide,
   ((monitor_strict_increase demoStamp demoWorld
      [⟨"v1".toList, timeUnix 100 0, timeUnix 105 0⟩,
       ⟨"v1".toList, timeUnix 100 0, timeUnix 110 0⟩]
      ⟨"v2".toList, timeUnix 250 0, timeUnix 255 0⟩ (by decide) (by decide)).2.2.1
      (by decide)).1⟩

/-- C4 (counterexample): the watcher holds the mark 100 s and reads the modification time
250 s, which is strictly greater, but the copy fails: no catalog entry is appended, no
file is written, the mark is 250 s all the same, and the watcher has stopped. -/
theorem monitor_strict_increase_counterexample :
    savedWorld.mon.stopped = false ∧
    savedWorld.mon.t = timeUnix 100 0 ∧
    osStat lockedPoll.statFault savedWorld.fs savedWorld.mon.p = .ok ⟨timeUnix 250 0⟩ ∧
    (timeUnix 250 0).Sub savedWorld.mon.t > 0 ∧
    (monitorPoll demoStamp lockedPoll savedWorld).aw.saves = [] ∧
    (monitorPoll demoStamp lockedPoll savedWorld).fs = savedWorld.fs ∧
    (monitorPoll demoStamp lockedPoll savedWorld).fs.lookup
      (Join demoDir "DDDA-250.sav.bak".toList) = none ∧
    (monitorPoll demoStamp lockedPoll savedWorld).mon.t = timeUnix 250 0 ∧
    (monitorPoll demoStamp lockedPoll savedWorld).mon.stopped = true := by
  decide

/-- C5 (the code at the failing input): the watcher holds the mark 100 s; the game saves
`v1` at 105.1 s, the watcher polls, the game saves `v2` at 105.6 s, the watcher polls.
Both readings are strictly greater than the mark they meet, and both backups get the name
`DDDA-105.sav.bak`: the catalog holds that name twice, and the file holds `v2`, the backup
of `v1` having been overwritten. -/
theorem monitor_same_second_overwrites :
    (observeAll demoStamp demoWorld (sameSecond.take 1)).aw.saves.map (fun e => e.Name)
      = ["DDDA-105.sav.bak".toList] ∧
    (observeAll demoStamp demoWorld (sameSecond.take 1)).fs.lookup
      (Join demoDir "DDDA-105.sav.bak".toList)
      = some ⟨"v1".toList, timeUnix 105 300000000⟩ ∧
    (observeAll demoStamp demoWorld sameSecond).aw.saves.map (fun e => e.Name)
      = ["DDDA-105.sav.bak".toList, "DDDA-105.sav.bak".toList] ∧
    (observeAll demoStamp demoWorld sameSecond).fs.lookup
      (Join demoDir "DDDA-105.sav.bak".toList)
      = some ⟨"v2".toList, timeUnix 110 300000000⟩ := by
  decide

/-- C10 (the code at the failing input): the program starts on the first directory, the
user selects the second one, the game saves in the first one and the watcher polls.  The
selected directory is the second one, the catalog lists `DDDA-150.sav.bak`, and that file
is in the first directory, not in the selected one.  When the user selects the entry and
clicks `Restore`, the live file of the selected directory is renamed and the restore then
fails: the selected directory is left without live file. -/
theorem catalog_entry_outside_selected_dir :
    startup demoStamp plainGlob demoWorld.fs [demoDir, otherDir] (timeUnix 100 0)
      = some demoWorld ∧
    (run demoStamp demoWorld switchThenSave).aw.saveDir = otherDir ∧
    (run demoStamp demoWorld switchThenSave).aw.saves
      = [⟨"DDDA-150.sav.bak".toList, "150".toList⟩] ∧
    (run demoStamp demoWorld switchThenSave).fs.lookup
      (Join otherDir "DDDA-150.sav.bak".toList) = none ∧
    (run demoStamp demoWorld switchThenSave).fs.lookup
      (Join demoDir "DDDA-150.sav.bak".toList) = some ⟨"v1".toList, timeUnix 155 0⟩ ∧
    (restoreSave calmEnv (run demoStamp demoWorld switchThenSave).fs otherDir
      ⟨"DDDA-150.sav.bak".toList, "150".toList⟩).2
      = [MsgBox.error (.notExist (Join otherDir "DDDA-150.sav.bak".toList))] ∧
    (run demoStamp demoWorld switchThenSave).fs.lookup (Join otherDir primarySaveFileName)
      = some ⟨"w0".toList, timeUnix 80 0⟩ ∧
    (run demoStamp demoWorld (switchThenSave ++ [.select 0, .restore calmEnv])).fs.lookup
      (Join otherDir primarySaveFileName) = none := by
  decide

end DDDA
